import Mathlib

/-!
Shallow embedding of `cruncher.py` (class `Cruncher`), a derivative-free
grid-narrowing optimizer.  Python floats are modelled as exact rationals
(`ℚ`), Python ints as `ℤ`.  Python's dynamically-typed variable
declarations are modelled by the `PyObj` type; the concrete values handed
to the evaluation function are modelled by `PVal`.  The engine's mutable
state (`self.global_increment_storage`) is threaded explicitly through a
`Cruncher` record, mirroring the side effects of the Python methods.
Leading underscores of the Python method names are dropped.
-/

/-- A Python runtime type tag, as produced by `type(...)` in the source's
validation code.  `bool` is distinct from `int`, exactly as in Python
(`type(True) == int` is `False`). -/
inductive PyType where
  | int
  | float
  | bool
  | list
  | tuple
  | str
  | none
deriving DecidableEq

/-- A Python object as far as the source inspects one: numbers, booleans,
lists and tuples of objects, strings, and `None`.  Variable declarations
are values of this type. -/
inductive PyObj where
  | vint (n : ℤ)
  | vfloat (q : ℚ)
  | vbool (b : Bool)
  | vlist (xs : List PyObj)
  | vtuple (xs : List PyObj)
  | vstr (s : String)
  | none

/-- `type(v)` on a `PyObj`. -/
def PyObj.typeOf : PyObj → PyType
  | .vint _ => .int
  | .vfloat _ => .float
  | .vbool _ => .bool
  | .vlist _ => .list
  | .vtuple _ => .tuple
  | .vstr _ => .str
  | .none => .none

/-- `type(v) in [float, int]`, the numeric-type membership test used by
`validate_list`.  `False` for booleans, as in Python source semantics
(`type(True)` is `bool`, not `int`). -/
def PyObj.isNumType : PyObj → Bool
  | .vint _ => true
  | .vfloat _ => true
  | _ => false

/-- Numeric value of a `PyObj` (Python arithmetic coerces `int` and `bool`
into floats; other cases never reach arithmetic in validated programs and
get a junk value). -/
def PyObj.toQ : PyObj → ℚ
  | .vint n => (n : ℚ)
  | .vfloat q => q
  | .vbool b => if b then 1 else 0
  | _ => 0

/-- A concrete sampled value placed into a parameter assignment: an int,
a float, or a bool, exactly the values the point generator produces. -/
inductive PVal where
  | int (n : ℤ)
  | float (q : ℚ)
  | bool (b : Bool)
deriving DecidableEq

/-- Numeric value of a sampled value (Python arithmetic semantics;
booleans coerce to 0/1). -/
def PVal.toQ : PVal → ℚ
  | .int n => (n : ℚ)
  | .float q => q
  | .bool b => if b then 1 else 0

/-- Integer content of a sampled value; used where the Python code does
integer arithmetic on a value that is an `int` in every reachable state
(booleans coerce as in Python; the float case is unreachable there and
gets a junk value). -/
def PVal.toZ : PVal → ℤ
  | .int n => n
  | .float _ => 0
  | .bool b => if b then 1 else 0

/-- Reading a number out of a declaration into the value world (used when
a raw range endpoint is appended to a candidate list, preserving its
Python type). -/
def PyObj.toPVal : PyObj → PVal
  | .vint n => .int n
  | .vfloat q => .float q
  | .vbool b => .bool b
  | _ => .float 0

/-- Writing a sampled value back into the declaration world (a constant's
best value is stored back verbatim by the range narrower). -/
def PVal.toObj : PVal → PyObj
  | .int n => .vint n
  | .float q => .vfloat q
  | .bool b => .vbool b

/-- `some_list[i]` / `some_tuple[i]`: element access on a list or tuple
object (out-of-range access raises in Python and is unreachable on
validated inputs; modelled with a junk `None`). -/
def PyObj.elemAt : PyObj → ℕ → PyObj
  | .vlist xs, i => xs.getD i .none
  | .vtuple xs, i => xs.getD i .none
  | _, _ => .none

/-- Python's `round` on an exact rational: round half to even (banker's
rounding), as `round` does on Python floats. -/
def pyRound (q : ℚ) : ℤ :=
  let fl := ⌊q⌋
  let frac := q - fl
  if frac < 1/2 then fl
  else if 1/2 < frac then fl + 1
  else if fl % 2 = 0 then fl else fl + 1

/-- The goal option: the strings `'max'` and `'min'`, or any other string,
which the source casts with `float(...)` and approaches. -/
inductive Goal where
  | max
  | min
  | target (t : ℚ)
deriving DecidableEq

/-- The search kinds assigned by `_determine_variable_type`:
`"constant"`, `"float"`, `"int"`, `"bool"`. -/
inductive VKind where
  | constant
  | float
  | int
  | bool
deriving DecidableEq

/-- `_determine_variable_type`: quick dispatch on the declaration's shape.
A tuple is `"int"` when its first element is an `int`, else `"bool"`;
anything unrecognized yields `None` (and an empty tuple, which would raise
in Python, also yields `none` here). -/
def determineVariableType : PyObj → Option VKind
  | .vint _ => some .constant
  | .vfloat _ => some .constant
  | .vlist _ => some .float
  | .vtuple (a :: _) => some (if a.typeOf = PyType.int then .int else .bool)
  | .vtuple [] => Option.none
  | _ => Option.none

/-- `validate_list` inside `_validate_variables`: a float-range
declaration must be a two-element list whose entries are both of numeric
type. -/
def validateList : List PyObj → Bool
  | [a, b] => a.isNumType && b.isNumType
  | _ => false

/-- `validate_tuple` inside `_validate_variables`: a tuple declaration
must have two elements of one same type, that type being `bool` or `int`.
The values themselves are not inspected. -/
def validateTuple : List PyObj → Bool
  | [a, b] =>
      if a.typeOf ≠ b.typeOf then false
      else if a.typeOf ≠ PyType.bool ∧ a.typeOf ≠ PyType.int then false
      else true
  | _ => false

/-- `validate_single` inside `_validate_variables`: ints and floats are
constants, lists are checked as float ranges, tuples as int/bool ranges,
everything else is rejected. -/
def validateSingle : PyObj → Bool
  | .vint _ => true
  | .vfloat _ => true
  | .vlist xs => validateList xs
  | .vtuple xs => validateTuple xs
  | _ => false

/-- `_validate_variables` raises unless the mapping is non-empty and every
declaration passes `validate_single`; `true` means no exception. -/
def validateVariables (vars : List (String × PyObj)) : Bool :=
  !vars.isEmpty && vars.all fun kv => validateSingle kv.2

/-- `Cruncher.__init__` succeeds: `points_per_split ≥ 3`,
`iterations ≥ 1`, and the variables validate. -/
def constructionOk (vars : List (String × PyObj)) (pps iters : ℕ) : Bool :=
  if pps < 3 then false
  else if iters < 1 then false
  else validateVariables vars

/-- The engine: the evaluation function, the originally declared search
space (an insertion-ordered mapping), the configuration options, and the
mutable per-variable step-size table `global_increment_storage`. -/
structure Cruncher where
  function : List (String × PVal) → ℚ
  /-- models `self.variables` (a Lean field cannot be called `variables`) -/
  vars : List (String × PyObj)
  points_per_split : ℕ
  iterations : ℕ
  goal : Goal
  check_all_ints : Bool
  global_increment_storage : List (String × ℚ)

/-- `self.types[key]`: the kind assigned once at construction.  Since
`self.variables` is never reassigned, computing it from the declarations
on demand is equivalent to the stored `self.types` dictionary. -/
def typesOf (c : Cruncher) (k : String) : Option VKind :=
  determineVariableType ((List.lookup k c.vars).getD .none)

/-- `self.variables[key]`: the originally declared object for a key. -/
def varDecl (c : Cruncher) (k : String) : PyObj :=
  (List.lookup k c.vars).getD .none

/-- `_get_every_int_in_tuple`: `range(t[0], t[1]+1)` collected in order
(empty when the range is inverted, as in Python). -/
def getEveryIntInTuple (lo hi : ℤ) : List ℤ :=
  (List.range (hi + 1 - lo).toNat).map fun k : ℕ => lo + (k : ℤ)

/-- The float-splitting loop of `_split_float_list_and_get_increment`:
`points.append(points[-1] + increment)` done `n` times, with the running
last value tracked explicitly. -/
def floatSteps (inc : ℚ) : ℕ → ℚ → List PVal
  | 0, _ => []
  | n + 1, lastv => .float (lastv + inc) :: floatSteps inc n (lastv + inc)

/-- `_split_float_list_and_get_increment`: first the raw low endpoint,
then `points_per_split - 2` accumulated steps, then the raw high endpoint;
also returns the increment `(hi - lo) / (points_per_split - 1)`. -/
def splitFloatListAndGetIncrement (pps : ℕ) (a b : PyObj) : List PVal × ℚ :=
  let diff := b.toQ - a.toQ
  let inc := diff / ((pps : ℚ) - 1)
  (a.toPVal :: floatSteps inc (pps - 2) a.toQ ++ [b.toPVal], inc)

/-- The integer-splitting loop of `_split_int_tuple_and_get_increment`:
the unrounded running value advances by the increment; its rounding is
appended unless it is already collected or equals the high endpoint. -/
def intSteps (inc : ℚ) (hi : ℤ) : ℕ → List ℤ → ℚ → List ℤ
  | 0, points, _ => points
  | n + 1, points, lastf =>
      let nf := lastf + inc
      let c := pyRound nf
      let points' := if c ∉ points ∧ c ≠ hi then points ++ [c] else points
      intSteps inc hi n points' nf

/-- `_split_int_tuple_and_get_increment`: low endpoint, deduplicated
rounded interior points, high endpoint; the returned increment is the
unrounded `(hi - lo) / (points_per_split - 1)`. -/
def splitIntTupleAndGetIncrement (pps : ℕ) (lo hi : ℤ) : List PVal × ℚ :=
  let diff := hi - lo
  let inc := (diff : ℚ) / ((pps : ℚ) - 1)
  ((intSteps inc hi (pps - 2) [lo] (lo : ℚ) ++ [hi]).map PVal.int, inc)

/-- One key's branch of the option-building loop in
`_generate_test_points`: the ordered candidate list for this iteration
and the step size written into `global_increment_storage` for that key.
Shape mismatches between the kind and the current range entry raise in
Python and are unreachable on validated inputs (junk `([], 0)` here). -/
def candidatesForKey (c : Cruncher) (ranges : List (String × PyObj))
    (k : String) : List PVal × ℚ :=
  let rk := (List.lookup k ranges).getD .none
  match typesOf c k with
  | some .constant => ([rk.toPVal], 0)
  | some .float =>
      match rk with
      | .vlist [a, b] => splitFloatListAndGetIncrement c.points_per_split a b
      | _ => ([], 0)
  | some .int =>
      if c.check_all_ints then
        match rk with
        | .vtuple [.vint lo, .vint hi] => ((getEveryIntInTuple lo hi).map PVal.int, 0)
        | _ => ([], 0)
      else
        match rk with
        | .vtuple [.vint lo, .vint hi] => splitIntTupleAndGetIncrement c.points_per_split lo hi
        | _ => ([], 0)
  | some .bool => ([.bool true, .bool false], 0)
  | Option.none => ([], 0)

/-- `itertools.product(*arrs)`: all combinations, rightmost list varying
fastest, as tuples in order. -/
def pyProduct : List (List α) → List (List α)
  | [] => [[]]
  | l :: ls => l.flatMap fun x => (pyProduct ls).map fun ys => x :: ys

/-- `_generate_test_points`: builds each key's candidate list, overwrites
the step-size table for every key, and returns the cartesian-product
batch of parameter assignments (each a key-ordered association list)
together with the engine whose `global_increment_storage` was updated. -/
def generateTestPoints (c : Cruncher) (ranges : List (String × PyObj)) :
    List (List (String × PVal)) × Cruncher :=
  let keys := c.vars.map Prod.fst
  let arrs := keys.map fun k => (candidatesForKey c ranges k).1
  let newStorage := keys.map fun k => (k, (candidatesForKey c ranges k).2)
  ((pyProduct arrs).map fun combo => List.zip keys combo,
   { c with global_increment_storage := newStorage })

/-- The strict "new beats incumbent" comparison of `_find_ideal_choice`:
`'max'` uses `>`, `'min'` uses `<`, and any other goal compares absolute
closeness `abs (goal - value)` with `<`. -/
def betterThan (g : Goal) (val best : ℚ) : Bool :=
  match g with
  | .max => decide (val > best)
  | .min => decide (val < best)
  | .target t => decide (|t - val| < |t - best|)

/-- One step of the best-so-far loop in `_find_ideal_choice`: an empty
incumbent (`if not best_val_var_pair`) is replaced unconditionally,
otherwise strictly better values replace it. -/
def selectStep (g : Goal) (f : List (String × PVal) → ℚ)
    (best : Option (ℚ × List (String × PVal))) (varSet : List (String × PVal)) :
    Option (ℚ × List (String × PVal)) :=
  match best with
  | Option.none => some (f varSet, varSet)
  | some (v, b) =>
      let val := f varSet
      if betterThan g val v then some (val, varSet) else some (v, b)

/-- `_find_ideal_choice`: fold the best-so-far step over the batch,
starting from the empty tuple (modelled by `none`). -/
def findIdealChoice (g : Goal) (f : List (String × PVal) → ℚ)
    (batch : List (List (String × PVal))) : Option (ℚ × List (String × PVal)) :=
  batch.foldl (selectStep g f) Option.none

/-- One step of `_find_ideal_choice` instrumented with the number of times
`self.function` is invoked: each loop iteration calls it exactly once, in
the first-assignment branch as well as in the comparison branch. -/
def selectStepCounted (g : Goal) (f : List (String × PVal) → ℚ)
    (acc : Option (ℚ × List (String × PVal)) × ℕ) (varSet : List (String × PVal)) :
    Option (ℚ × List (String × PVal)) × ℕ :=
  match acc with
  | (Option.none, n) => (some (f varSet, varSet), n + 1)
  | (some (v, b), n) =>
      let val := f varSet
      ((if betterThan g val v then some (val, varSet) else some (v, b)), n + 1)

/-- `_find_ideal_choice` instrumented with the evaluation count. -/
def findIdealChoiceCounted (g : Goal) (f : List (String × PVal) → ℚ)
    (batch : List (List (String × PVal))) :
    Option (ℚ × List (String × PVal)) × ℕ :=
  batch.foldl (selectStepCounted g f) (Option.none, 0)

/-- One key's branch of `_convert_best_val_var_pair_into_ranges`:
constants keep the best value, booleans become the full `(True, False)`
tuple, integer ranges get a rounded (or minimal ±1) window clamped to the
original declared bounds, float ranges get a `best ± step` window clamped
to the original declared bounds.  `v` is the best assignment's value for
this key; the original bounds are read from `self.variables`. -/
def narrowKey (c : Cruncher) (k : String) (v : PVal) : PyObj :=
  match typesOf c k with
  | some .constant => v.toObj
  | some .bool => .vtuple [.vbool true, .vbool false]
  | some .int =>
      if c.check_all_ints then
        .vtuple [(varDecl c k).elemAt 0, (varDecl c k).elemAt 1]
      else
        let inc := (List.lookup k c.global_increment_storage).getD 0
        let lo := ((varDecl c k).elemAt 0).toQ
        let hi := ((varDecl c k).elemAt 1).toQ
        if inc < 1 then
          let start := v.toZ - 1
          let stop := v.toZ + 1
          let start := if (start : ℚ) < lo then ((varDecl c k).elemAt 0).toPVal.toZ else start
          let stop := if (stop : ℚ) > hi then ((varDecl c k).elemAt 1).toPVal.toZ else stop
          .vtuple [.vint start, .vint stop]
        else
          let start := pyRound (v.toQ - inc)
          let stop := pyRound (v.toQ + inc)
          let start := if (start : ℚ) < lo then ((varDecl c k).elemAt 0).toPVal.toZ else start
          let stop := if (stop : ℚ) > hi then ((varDecl c k).elemAt 1).toPVal.toZ else stop
          .vtuple [.vint start, .vint stop]
  | some .float =>
      let inc := (List.lookup k c.global_increment_storage).getD 0
      let lo := ((varDecl c k).elemAt 0).toQ
      let hi := ((varDecl c k).elemAt 1).toQ
      let start := v.toQ - inc
      let stop := v.toQ + inc
      let start := if start < lo then lo else start
      let stop := if stop > hi then hi else stop
      .vlist [.vfloat start, .vfloat stop]
  | Option.none => .none

/-- `_convert_best_val_var_pair_into_ranges`: rebuild a range dictionary
from the best assignment, one entry per key of the best assignment. -/
def convertBestValVarPairIntoRanges (c : Cruncher)
    (best : ℚ × List (String × PVal)) : List (String × PyObj) :=
  best.2.map fun kv => (kv.1, narrowKey c kv.1 kv.2)

/-- The early-exit test of `crunch`:
`self.goal not in ['max', 'min'] and ret == float(self.goal)`. -/
def goalTargetHit (g : Goal) (ret : ℚ) : Bool :=
  match g with
  | .max => false
  | .min => false
  | .target t => decide (ret = t)

/-- The `for x in range(self.iterations)` loop of `crunch`, with the
fuel counting remaining iterations.  `last` carries the previous
iteration's `(ret, vars)` pair, which the Python code returns when the
loop ends without the early exit; the empty-batch case (which raises a
`ValueError` on unpacking in Python) yields `none`. -/
def crunchLoop (c : Cruncher) (points : List (List (String × PVal)))
    (last : Option (ℚ × List (String × PVal))) :
    ℕ → Option (ℚ × List (String × PVal)) × Cruncher
  | 0 => (last, c)
  | n + 1 =>
      match findIdealChoice c.goal c.function points with
      | Option.none => (Option.none, c)
      | some (ret, vrs) =>
          if goalTargetHit c.goal ret then (some (ret, vrs), c)
          else
            let ranges := convertBestValVarPairIntoRanges c (ret, vrs)
            let pc := generateTestPoints c ranges
            crunchLoop pc.2 pc.1 (some (ret, vrs)) n

/-- `crunch`: generate the initial batch from the declared variables, then
iterate select / early-exit / narrow / regenerate; returns the result pair
and the engine as left by its side effects. -/
def crunch (c : Cruncher) : Option (ℚ × List (String × PVal)) × Cruncher :=
  let pc := generateTestPoints c c.vars
  crunchLoop pc.2 pc.1 Option.none c.iterations

/-- `estimate_crunch_time`, reduced to the seconds total handed to the
pretty-printer: counts the float/int/bool kinds among the declared
variables and, when `check_all_ints` is off, multiplies the single-run
cost by `points_per_split ** (num_int + num_float)`, by `2 * num_bool`
when any boolean is present, and by the iteration count; with
`check_all_ints` on there is no estimate (the source returns an
unsupported-message string). -/
def estimateCrunchSeconds (c : Cruncher) (timeOfOneSim : ℚ) : Option ℚ :=
  let numBool := ((c.vars.map Prod.fst).filter fun k => typesOf c k = some .bool).length
  let numInt := ((c.vars.map Prod.fst).filter fun k => typesOf c k = some .int).length
  let numFloat := ((c.vars.map Prod.fst).filter fun k => typesOf c k = some .float).length
  if !c.check_all_ints then
    if numBool ≠ 0 then
      some (timeOfOneSim * (c.points_per_split : ℚ) ^ (numInt + numFloat)
        * (2 * (numBool : ℚ)) * (c.iterations : ℚ))
    else
      some (timeOfOneSim * (c.points_per_split : ℚ) ^ (numInt + numFloat)
        * (c.iterations : ℚ))
  else
    Option.none

/-- The score key that turns each goal's strict replacement test into the
ordinary strict order `<` on `ℚ`: `max` compares negated scores, `min`
scores, a target the absolute distance to it (proof helper). -/
def keyQ (g : Goal) (v : ℚ) : ℚ :=
  match g with
  | .max => -v
  | .min => v
  | .target t => |t - v|

/-- First-best selection helper: starting from incumbent `b`, walk the
rest of the batch replacing the incumbent exactly when `betterThan`
holds.  Used to characterize the `_find_ideal_choice` fold. -/
def pickBest (g : Goal) (f : List (String × PVal) → ℚ) :
    List (String × PVal) → List (List (String × PVal)) → List (String × PVal)
  | b, [] => b
  | b, x :: xs => if betterThan g (f x) (f b) then pickBest g f x xs else pickBest g f b xs

/-- `i`-th element of a rational list, defaulting to `0` (indexing helper
for stating successive-increment properties). -/
def nthQ (l : List ℚ) (i : ℕ) : ℚ :=
  l.getD i 0

/-- The integer candidate list as the spec (§4.2) words it: start from
`[lo]`; for each of the `n - 2` interior interpolated values
`lo + k * inc` (`k = 1 .. n-2`, with the unrounded increment
`inc = (hi - lo)/(n - 1)`), round it to the nearest integer and append it
unless it duplicates an already-collected point or equals `hi`; finally
append `hi`.  This definition follows the spec's description and is
proved equal to the source's `splitIntTupleAndGetIncrement`. -/
def intPointsSpec (pps : ℕ) (lo hi : ℤ) : List ℤ :=
  let inc : ℚ := ((hi - lo : ℤ) : ℚ) / ((pps : ℚ) - 1)
  (((List.range (pps - 2)).map fun k : ℕ => (lo : ℚ) + ((k : ℚ) + 1) * inc).foldl
    (fun ps v =>
      let c := pyRound v
      if c ∉ ps ∧ c ≠ hi then ps ++ [c] else ps) [lo]) ++ [hi]

/-- The four declaration shapes the engine recognizes: a numeric
constant, a two-element list of numbers (continuous range), a two-element
tuple of integers, or a two-element tuple of booleans.  Written from the
spec's §3 data model, except that the values of a boolean tuple are not
constrained (the code accepts equal booleans; see the C7 theorems). -/
def recognizedShape : PyObj → Bool
  | .vint _ => true
  | .vfloat _ => true
  | .vlist [a, b] => a.isNumType && b.isNumType
  | .vtuple [.vint _, .vint _] => true
  | .vtuple [.vbool _, .vbool _] => true
  | _ => false

/-- Example evaluation function: score is the numeric value of the
variable `"x"` (used by concrete witnesses). -/
def evalLookupX (a : List (String × PVal)) : ℚ :=
  ((List.lookup "x" a).getD (.int 0)).toQ

/-- Witness engine with one variable of each kind and a populated
step-size table (as after a point-generation pass with step 5). -/
def exMixed : Cruncher :=
  { function := fun _ => 0
    vars := [("f", .vlist [.vint 0, .vint 10]),
             ("i", .vtuple [.vint 0, .vint 10]),
             ("b", .vtuple [.vbool true, .vbool false]),
             ("c", .vfloat 7)]
    points_per_split := 3
    iterations := 1
    goal := .max
    check_all_ints := false
    global_increment_storage := [("f", 5), ("i", 5), ("b", 0), ("c", 0)] }

/-- Witness engine with three boolean variables (the `estimate_crunch_time`
failing input). -/
def exBool3 : Cruncher :=
  { function := fun _ => 0
    vars := [("p", .vtuple [.vbool true, .vbool false]),
             ("q", .vtuple [.vbool true, .vbool false]),
             ("r", .vtuple [.vbool true, .vbool false])]
    points_per_split := 3
    iterations := 1
    goal := .max
    check_all_ints := false
    global_increment_storage := [] }

/-- Witness engine with a single constant variable. -/
def exConst : Cruncher :=
  { function := fun _ => 0
    vars := [("x", .vint 5)]
    points_per_split := 3
    iterations := 1
    goal := .max
    check_all_ints := false
    global_increment_storage := [] }

/-- Witness engine approaching the target 7 over the integer range
(7, 9), whose first batch contains a point scoring exactly 7. -/
def exTarget7 : Cruncher :=
  { function := evalLookupX
    vars := [("x", .vtuple [.vint 7, .vint 9])]
    points_per_split := 3
    iterations := 5
    goal := .target 7
    check_all_ints := false
    global_increment_storage := [] }

/-- Witness engine with one float range [0, 10]. -/
def exFloat : Cruncher :=
  { function := evalLookupX
    vars := [("x", .vlist [.vint 0, .vint 10])]
    points_per_split := 3
    iterations := 1
    goal := .max
    check_all_ints := false
    global_increment_storage := [] }

/-- Witness engine with one integer range (0, 10) and 4 points per
split. -/
def exInt : Cruncher :=
  { function := evalLookupX
    vars := [("x", .vtuple [.vint 0, .vint 10])]
    points_per_split := 4
    iterations := 1
    goal := .max
    check_all_ints := false
    global_increment_storage := [] }

/-- Witness engine with one integer range (2, 5) in check-all-integers
mode. -/
def exIntAll : Cruncher :=
  { function := evalLookupX
    vars := [("x", .vtuple [.vint 2, .vint 5])]
    points_per_split := 3
    iterations := 1
    goal := .max
    check_all_ints := true
    global_increment_storage := [] }

theorem toPVal_toQ (a : PyObj) : a.toPVal.toQ = a.toQ := by
  cases a <;> rfl

theorem validateSingle_eq_recognizedShape (v : PyObj) :
    validateSingle v = recognizedShape v := by
  cases v with
  | vlist xs =>
      match xs with
      | [] => rfl
      | [_] => rfl
      | [_, _] => rfl
      | _ :: _ :: _ :: _ => rfl
  | vtuple xs =>
      match xs with
      | [] => rfl
      | [a] => cases a <;> rfl
      | [a, b] => cases a <;> cases b <;> rfl
      | a :: b :: _ :: _ => cases a <;> cases b <;> rfl
  | _ => rfl

/-- C7 counterexample: a boolean declaration whose two endpoints are the
same boolean literal, such as `(True, True)` or `(False, False)`, passes
`_validate_variables`, and engine construction with such a declaration
succeeds — it does not raise a validation error as the claim states. -/
theorem claim7_counterexample :
    validateSingle (.vtuple [.vbool true, .vbool true]) = true ∧
    validateSingle (.vtuple [.vbool false, .vbool false]) = true ∧
    constructionOk [("flag", .vtuple [.vbool true, .vbool true])] 3 1 = true := by
  refine ⟨rfl, rfl, rfl⟩

/-- C7 (amended): engine construction fails for every search space
containing a variable declaration that is not one of the four recognized
shapes — a numeric constant, a two-element list of numbers, a two-element
tuple of integers, or a two-element tuple of booleans.  (Boolean tuples
with equal values are among the accepted shapes: the code never compares
the two boolean endpoints, so `(True, True)` does not raise.) -/
theorem claim7_amended_validation (vars : List (String × PyObj)) (pps iters : ℕ)
    (k : String) (v : PyObj) (hmem : (k, v) ∈ vars)
    (hbad : recognizedShape v = false) :
    constructionOk vars pps iters = false := by
  have hall : vars.all (fun kv => validateSingle kv.2) = false := by
    by_contra h
    rw [Bool.not_eq_false] at h
    have hv := List.all_eq_true.mp h (k, v) hmem
    rw [validateSingle_eq_recognizedShape] at hv
    simp [hbad] at hv
  have hvv : validateVariables vars = false := by
    simp [validateVariables, hall]
  unfold constructionOk
  by_cases h3 : pps < 3
  · simp [h3]
  · by_cases h1 : iters < 1
    · simp [h3, h1]
    · simp [h3, h1, hvv]

/-- Witness for C7's amended theorem: a string declaration is rejected at
construction. -/
theorem claim7_witness :
    (("x", PyObj.vstr "oops") ∈ [("x", PyObj.vstr "oops")] ∧
      recognizedShape (PyObj.vstr "oops") = false) ∧
    constructionOk [("x", PyObj.vstr "oops")] 3 1 = false := by
  refine ⟨⟨List.mem_singleton.mpr rfl, rfl⟩, ?_⟩
  exact claim7_amended_validation _ 3 1 "x" (PyObj.vstr "oops")
    (List.mem_singleton.mpr rfl) rfl

theorem estimateCrunchSeconds_of_counts (c : Cruncher) (t : ℚ) (nb ni nf : ℕ)
    (hcai : c.check_all_ints = false)
    (hb : ((c.vars.map Prod.fst).filter fun k => typesOf c k = some .bool).length = nb)
    (hi : ((c.vars.map Prod.fst).filter fun k => typesOf c k = some .int).length = ni)
    (hf : ((c.vars.map Prod.fst).filter fun k => typesOf c k = some .float).length = nf)
    (hnb : nb ≠ 0) :
    estimateCrunchSeconds c t =
      some (t * (c.points_per_split : ℚ) ^ (ni + nf) * (2 * (nb : ℚ))
        * (c.iterations : ℚ)) := by
  simp [estimateCrunchSeconds, hcai, hb, hi, hf, hnb]

/-- C6 is a code bug: with three boolean variables the helper multiplies
the per-iteration cost by `2 * num_bool = 6`, while the claimed formula
`2 ** num_bool` gives `8` — which is exactly the size of the batch the
engine actually evaluates per iteration (the cartesian product over the
three two-element boolean candidate lists). -/
theorem claim6_estimate_code_bug :
    estimateCrunchSeconds exBool3 1 = some 6 ∧
    (1 : ℚ) * (3 : ℚ) ^ (0 : ℕ) * 2 ^ (3 : ℕ) * 1 = 8 ∧
    (generateTestPoints exBool3 exBool3.vars).1.length = 8 ∧
    (6 : ℚ) ≠ 8 := by
  refine ⟨?_, by norm_num, by decide, by norm_num⟩
  rw [estimateCrunchSeconds_of_counts exBool3 1 3 0 0 rfl (by decide) (by decide)
    (by decide) (by norm_num)]
  have h3 : exBool3.points_per_split = 3 := rfl
  have h1 : exBool3.iterations = 1 := rfl
  rw [h3, h1]
  norm_num

/-- C8: with `check_all_ints` on, an integer-range key's candidate list is
every integer from `lo` to `hi` inclusive, in strictly ascending order,
with length `hi - lo + 1`, and the recorded step size is `0`. -/
theorem claim8_check_all_ints (c : Cruncher) (ranges : List (String × PyObj))
    (k : String) (lo hi : ℤ)
    (hk : typesOf c k = some .int)
    (hcai : c.check_all_ints = true)
    (hrk : List.lookup k ranges = some (.vtuple [.vint lo, .vint hi]))
    (hle : lo ≤ hi) :
    (candidatesForKey c ranges k).1 = (getEveryIntInTuple lo hi).map PVal.int ∧
    (candidatesForKey c ranges k).2 = 0 ∧
    ((getEveryIntInTuple lo hi).length : ℤ) = hi - lo + 1 ∧
    (∀ z : ℤ, z ∈ getEveryIntInTuple lo hi ↔ lo ≤ z ∧ z ≤ hi) ∧
    (getEveryIntInTuple lo hi).Pairwise (· < ·) := by
  refine ⟨?_, ?_, ?_, ?_, ?_⟩
  · simp [candidatesForKey, hk, hcai, hrk]
  · simp [candidatesForKey, hk, hcai, hrk]
  · have hlen : (getEveryIntInTuple lo hi).length = (hi + 1 - lo).toNat := by
      simp [getEveryIntInTuple]
    rw [hlen]
    omega
  · intro z
    simp only [getEveryIntInTuple, List.mem_map, List.mem_range]
    constructor
    · rintro ⟨a, ha, rfl⟩
      omega
    · rintro ⟨h1, h2⟩
      exact ⟨(z - lo).toNat, by omega, by omega⟩
  · refine List.Pairwise.map _ ?_ (List.pairwise_lt_range _)
    intro a b hab
    omega

/-- Witness for C8 at the integer range (2, 5). -/
theorem claim8_witness :
    (typesOf exIntAll "x" = some .int ∧ exIntAll.check_all_ints = true ∧
      List.lookup "x" exIntAll.vars = some (.vtuple [.vint 2, .vint 5]) ∧
      (2 : ℤ) ≤ 5) ∧
    ((candidatesForKey exIntAll exIntAll.vars "x").1 =
        (getEveryIntInTuple 2 5).map PVal.int ∧
    (candidatesForKey exIntAll exIntAll.vars "x").2 = 0 ∧
    ((getEveryIntInTuple 2 5).length : ℤ) = 5 - 2 + 1 ∧
    (∀ z : ℤ, z ∈ getEveryIntInTuple 2 5 ↔ 2 ≤ z ∧ z ≤ 5) ∧
    (getEveryIntInTuple 2 5).Pairwise (· < ·)) :=
  ⟨⟨by decide, rfl, rfl, by decide⟩,
    claim8_check_all_ints exIntAll exIntAll.vars "x" 2 5 (by decide) rfl
      rfl (by decide)⟩

theorem floatSteps_length (inc : ℚ) (n : ℕ) : ∀ v : ℚ, (floatSteps inc n v).length = n := by
  induction n with
  | zero => intro v; rfl
  | succ m ih => intro v; simp [floatSteps, ih]

theorem floatSteps_eq_map (inc : ℚ) (n : ℕ) : ∀ v : ℚ,
    floatSteps inc n v =
      (List.range n).map fun i : ℕ => PVal.float (v + ((i : ℚ) + 1) * inc) := by
  induction n with
  | zero => intro v; rfl
  | succ m ih =>
      intro v
      rw [floatSteps, ih (v + inc), List.range_succ_eq_map]
      simp only [List.map_cons, List.map_map, Function.comp]
      refine congrArg₂ List.cons (congrArg PVal.float (by push_cast; ring)) ?_
      refine List.map_congr_left fun i _ => ?_
      exact congrArg PVal.float (by push_cast; ring)

theorem splitFloat_spec (pps : ℕ) (hpps : 3 ≤ pps) (a b : PyObj) :
    (splitFloatListAndGetIncrement pps a b).2 =
      (b.toQ - a.toQ) / ((pps : ℚ) - 1) ∧
    (splitFloatListAndGetIncrement pps a b).1.length = pps ∧
    (∀ i : ℕ, i < pps →
      nthQ ((splitFloatListAndGetIncrement pps a b).1.map PVal.toQ) i =
        a.toQ + (i : ℚ) * (splitFloatListAndGetIncrement pps a b).2) ∧
    ((splitFloatListAndGetIncrement pps a b).1.map PVal.toQ).head? = some a.toQ ∧
    ((splitFloatListAndGetIncrement pps a b).1.map PVal.toQ).getLast? = some b.toQ := by
  have hinc : (splitFloatListAndGetIncrement pps a b).2 =
      (b.toQ - a.toQ) / ((pps : ℚ) - 1) := rfl
  have hne : ((pps : ℚ) - 1) ≠ 0 := by
    have h3 : (3 : ℚ) ≤ (pps : ℚ) := by exact_mod_cast hpps
    exact ne_of_gt (by linarith)
  have hmap : (splitFloatListAndGetIncrement pps a b).1.map PVal.toQ =
      a.toQ :: ((List.range (pps - 2)).map fun i : ℕ =>
        a.toQ + ((i : ℚ) + 1) * (splitFloatListAndGetIncrement pps a b).2) ++ [b.toQ] := by
    simp only [splitFloatListAndGetIncrement, floatSteps_eq_map, List.map_cons,
      List.map_append, List.map_map, Function.comp, List.map_nil, toPVal_toQ]
    rfl
  have hlast_val : b.toQ = a.toQ + ((pps : ℚ) - 1) * (splitFloatListAndGetIncrement pps a b).2 := by
    rw [hinc]
    field_simp
  refine ⟨hinc, ?_, ?_, ?_, ?_⟩
  · have := congrArg List.length hmap
    simp only [List.length_map, List.length_cons, List.length_append,
      List.length_range, List.length_nil] at this
    omega
  · intro i hilt
    rw [nthQ, hmap]
    by_cases hi1 : i < pps - 1
    · rw [List.getD_append _ _ _ _ (by simp; omega)]
      cases i with
      | zero =>
          simp only [List.getD_cons_zero]
          push_cast
          ring
      | succ j =>
          have hj : j < pps - 2 := by omega
          rw [List.getD_cons_succ]
          simp only [List.getD_eq_getElem?_getD, List.getElem?_map, List.getElem?_range hj,
            Option.map_some', Option.getD_some]
          push_cast
          ring
    · have hi2 : i = pps - 1 := by omega
      rw [List.getD_append_right _ _ _ _ (by simp; omega)]
      simp only [List.length_cons, List.length_map, List.length_range]
      rw [show i - (pps - 2 + 1) = 0 by omega]
      have hcast : (i : ℚ) = (pps : ℚ) - 1 := by
        subst hi2
        push_cast [Nat.cast_sub (show 1 ≤ pps by omega)]
        ring
      rw [List.getD_cons_zero, hlast_val, hcast]
  · rw [hmap]
    rfl
  · rw [hmap]
    exact List.getLast?_concat _

/-- C3: for a float-range key with declared range `[lo, hi]` and
`points_per_split = n ≥ 3`, the candidate list has exactly `n` elements,
its first element is exactly `lo`, its last is exactly `hi`, successive
elements differ by `(hi - lo)/(n - 1)`, and the recorded step size equals
`(hi - lo)/(n - 1)`. -/
theorem claim3_float_split (c : Cruncher) (ranges : List (String × PyObj))
    (k : String) (a b : PyObj)
    (hk : typesOf c k = some .float)
    (hrk : List.lookup k ranges = some (.vlist [a, b]))
    (hpps : 3 ≤ c.points_per_split)
    (hle : a.toQ ≤ b.toQ) :
    (candidatesForKey c ranges k).2 =
      (b.toQ - a.toQ) / ((c.points_per_split : ℚ) - 1) ∧
    (candidatesForKey c ranges k).1.length = c.points_per_split ∧
    ((candidatesForKey c ranges k).1.map PVal.toQ).head? = some a.toQ ∧
    ((candidatesForKey c ranges k).1.map PVal.toQ).getLast? = some b.toQ ∧
    (∀ i : ℕ, i + 1 < c.points_per_split →
      nthQ ((candidatesForKey c ranges k).1.map PVal.toQ) (i + 1) -
        nthQ ((candidatesForKey c ranges k).1.map PVal.toQ) i =
        (candidatesForKey c ranges k).2) := by
  have hck : candidatesForKey c ranges k =
      splitFloatListAndGetIncrement c.points_per_split a b := by
    simp [candidatesForKey, hk, hrk]
  obtain ⟨h2, hlen, hidx, hhead, hlast⟩ := splitFloat_spec c.points_per_split hpps a b
  rw [hck]
  refine ⟨h2, hlen, hhead, hlast, ?_⟩
  intro i hilt
  rw [hidx (i + 1) hilt, hidx i (by omega)]
  push_cast
  ring

/-- Witness for C3 at the float range [0, 10] with 3 points per split. -/
theorem claim3_witness :
    (typesOf exFloat "x" = some .float ∧
      List.lookup "x" exFloat.vars = some (.vlist [.vint 0, .vint 10]) ∧
      3 ≤ exFloat.points_per_split ∧
      (PyObj.vint 0).toQ ≤ (PyObj.vint 10).toQ) ∧
    ((candidatesForKey exFloat exFloat.vars "x").2 =
      ((PyObj.vint 10).toQ - (PyObj.vint 0).toQ) / ((exFloat.points_per_split : ℚ) - 1) ∧
    (candidatesForKey exFloat exFloat.vars "x").1.length = exFloat.points_per_split ∧
    ((candidatesForKey exFloat exFloat.vars "x").1.map PVal.toQ).head? =
      some (PyObj.vint 0).toQ ∧
    ((candidatesForKey exFloat exFloat.vars "x").1.map PVal.toQ).getLast? =
      some (PyObj.vint 10).toQ ∧
    (∀ i : ℕ, i + 1 < exFloat.points_per_split →
      nthQ ((candidatesForKey exFloat exFloat.vars "x").1.map PVal.toQ) (i + 1) -
        nthQ ((candidatesForKey exFloat exFloat.vars "x").1.map PVal.toQ) i =
        (candidatesForKey exFloat exFloat.vars "x").2)) :=
  ⟨⟨by decide, rfl, by decide, by norm_num [PyObj.toQ]⟩,
    claim3_float_split exFloat exFloat.vars "x" (.vint 0) (.vint 10)
      (by decide) rfl (by decide) (by norm_num [PyObj.toQ])⟩

theorem intSteps_eq_fold (inc : ℚ) (hi : ℤ) (n : ℕ) : ∀ (pts : List ℤ) (x : ℚ),
    intSteps inc hi n pts x =
      ((List.range n).map fun k : ℕ => x + ((k : ℚ) + 1) * inc).foldl
        (fun ps v =>
          let c := pyRound v
          if c ∉ ps ∧ c ≠ hi then ps ++ [c] else ps) pts := by
  induction n with
  | zero => intro pts x; rfl
  | succ m ih =>
      intro pts x
      rw [intSteps, ih, List.range_succ_eq_map]
      simp only [List.map_cons, List.map_map, List.foldl_cons,
        Nat.cast_zero, zero_add, one_mul]
      refine congrArg (List.foldl _ _) ?_
      refine List.map_congr_left fun k _ => ?_
      simp only [Function.comp_apply]
      push_cast
      ring

theorem intSteps_prefix (inc : ℚ) (hi : ℤ) (n : ℕ) : ∀ (pts : List ℤ) (x : ℚ),
    ∃ suf, intSteps inc hi n pts x = pts ++ suf := by
  induction n with
  | zero => intro pts x; exact ⟨[], (List.append_nil pts).symm⟩
  | succ m ih =>
      intro pts x
      rw [intSteps]
      by_cases hc : pyRound (x + inc) ∉ pts ∧ pyRound (x + inc) ≠ hi
      · obtain ⟨suf, hsuf⟩ := ih (pts ++ [pyRound (x + inc)]) (x + inc)
        refine ⟨[pyRound (x + inc)] ++ suf, ?_⟩
        simp only [if_pos hc] at hsuf ⊢
        rw [hsuf, List.append_assoc]
      · obtain ⟨suf, hsuf⟩ := ih pts (x + inc)
        refine ⟨suf, ?_⟩
        simp only [if_neg hc] at hsuf ⊢
        exact hsuf

theorem splitInt_eq_spec (pps : ℕ) (lo hi : ℤ) :
    (splitIntTupleAndGetIncrement pps lo hi).1 =
      (intPointsSpec pps lo hi).map PVal.int ∧
    (splitIntTupleAndGetIncrement pps lo hi).2 =
      ((hi : ℚ) - (lo : ℚ)) / ((pps : ℚ) - 1) := by
  constructor
  · simp only [splitIntTupleAndGetIncrement, intPointsSpec]
    rw [intSteps_eq_fold]
  · simp only [splitIntTupleAndGetIncrement]
    push_cast
    rfl

/-- C4: for an integer-range key with `check_all_ints` off and
`points_per_split = n ≥ 3`, the candidate list begins with `lo` and ends
with `hi`; it equals the spec's description `intPointsSpec`: each of the
`n - 2` interior interpolated values `lo + k * (hi-lo)/(n-1)` is rounded
and appended unless it duplicates an already-collected point or equals
`hi`; and the recorded step size is the unrounded increment
`(hi-lo)/(n-1)`. -/
theorem claim4_int_split (c : Cruncher) (ranges : List (String × PyObj))
    (k : String) (lo hi : ℤ)
    (hk : typesOf c k = some .int)
    (hcai : c.check_all_ints = false)
    (hrk : List.lookup k ranges = some (.vtuple [.vint lo, .vint hi]))
    (hpps : 3 ≤ c.points_per_split)
    (hle : lo ≤ hi) :
    (candidatesForKey c ranges k).1 =
      (intPointsSpec c.points_per_split lo hi).map PVal.int ∧
    (candidatesForKey c ranges k).2 =
      ((hi : ℚ) - (lo : ℚ)) / ((c.points_per_split : ℚ) - 1) ∧
    (candidatesForKey c ranges k).1.head? = some (.int lo) ∧
    (candidatesForKey c ranges k).1.getLast? = some (.int hi) := by
  have hck : candidatesForKey c ranges k =
      splitIntTupleAndGetIncrement c.points_per_split lo hi := by
    simp [candidatesForKey, hk, hrk, hcai]
  rw [hck]
  obtain ⟨h1, h2⟩ := splitInt_eq_spec c.points_per_split lo hi
  refine ⟨h1, h2, ?_, ?_⟩
  · obtain ⟨suf, hsuf⟩ := intSteps_prefix
      (((hi - lo : ℤ) : ℚ) / ((c.points_per_split : ℚ) - 1)) hi
      (c.points_per_split - 2) [lo] (lo : ℚ)
    simp only [splitIntTupleAndGetIncrement, hsuf, List.cons_append, List.nil_append,
      List.map_cons, List.head?_cons]
  · simp only [splitIntTupleAndGetIncrement, List.map_append]
    exact List.getLast?_concat _

/-- Witness for C4 at the integer range (0, 10) with 4 points per split. -/
theorem claim4_witness :
    (typesOf exInt "x" = some .int ∧ exInt.check_all_ints = false ∧
      List.lookup "x" exInt.vars = some (.vtuple [.vint 0, .vint 10]) ∧
      3 ≤ exInt.points_per_split ∧ (0 : ℤ) ≤ 10) ∧
    ((candidatesForKey exInt exInt.vars "x").1 =
      (intPointsSpec exInt.points_per_split 0 10).map PVal.int ∧
    (candidatesForKey exInt exInt.vars "x").2 =
      ((10 : ℚ) - (0 : ℚ)) / ((exInt.points_per_split : ℚ) - 1) ∧
    (candidatesForKey exInt exInt.vars "x").1.head? = some (.int 0) ∧
    (candidatesForKey exInt exInt.vars "x").1.getLast? = some (.int 10)) :=
  ⟨⟨by decide, rfl, rfl, by decide, by decide⟩,
    claim4_int_split exInt exInt.vars "x" 0 10 (by decide) rfl rfl
      (by decide) (by decide)⟩

theorem betterThan_iff (g : Goal) (v w : ℚ) :
    betterThan g v w = true ↔ keyQ g v < keyQ g w := by
  cases g with
  | max => simp [betterThan, keyQ, neg_lt_neg_iff]
  | min => simp [betterThan, keyQ]
  | target t => simp [betterThan, keyQ]

theorem foldl_selectStep_eq_pick (g : Goal) (f : List (String × PVal) → ℚ)
    (xs : List (List (String × PVal))) : ∀ b : List (String × PVal),
    List.foldl (selectStep g f) (some (f b, b)) xs =
      some (f (pickBest g f b xs), pickBest g f b xs) := by
  induction xs with
  | nil => intro b; rfl
  | cons x xs ih =>
      intro b
      rw [List.foldl_cons]
      by_cases h : betterThan g (f x) (f b) = true
      · rw [show selectStep g f (some (f b, b)) x = some (f x, x) by
          simp [selectStep, h]]
        rw [ih x, pickBest, if_pos h]
      · rw [show selectStep g f (some (f b, b)) x = some (f b, b) by
          simp [selectStep, h]]
        rw [ih b, pickBest, if_neg h]

theorem findIdealChoice_cons (g : Goal) (f : List (String × PVal) → ℚ)
    (x : List (String × PVal)) (xs : List (List (String × PVal))) :
    findIdealChoice g f (x :: xs) =
      some (f (pickBest g f x xs), pickBest g f x xs) := by
  rw [findIdealChoice, List.foldl_cons]
  exact foldl_selectStep_eq_pick g f xs x

theorem pickBest_key_le (g : Goal) (f : List (String × PVal) → ℚ)
    (xs : List (List (String × PVal))) : ∀ b, ∀ y ∈ b :: xs,
    keyQ g (f (pickBest g f b xs)) ≤ keyQ g (f y) := by
  induction xs with
  | nil =>
      intro b y hy
      rw [List.mem_singleton] at hy
      subst hy
      exact le_of_eq rfl
  | cons x xs ih =>
      intro b y hy
      rw [pickBest]
      by_cases h : betterThan g (f x) (f b) = true
      · rw [if_pos h]
        cases List.mem_cons.mp hy with
        | inl hb =>
            rw [hb]
            have h1 : keyQ g (f (pickBest g f x xs)) ≤ keyQ g (f x) :=
              ih x x (List.mem_cons_self _ _)
            have h2 : keyQ g (f x) < keyQ g (f b) := (betterThan_iff _ _ _).mp h
            linarith
        | inr hy2 => exact ih x y hy2
      · rw [if_neg h]
        cases List.mem_cons.mp hy with
        | inl hb =>
            rw [hb]
            exact ih b b (List.mem_cons_self _ _)
        | inr hy2 =>
            cases List.mem_cons.mp hy2 with
            | inl hx =>
                rw [hx]
                have h1 : keyQ g (f (pickBest g f b xs)) ≤ keyQ g (f b) :=
                  ih b b (List.mem_cons_self _ _)
                have h2 : keyQ g (f b) ≤ keyQ g (f x) :=
                  not_lt.mp fun hc => h ((betterThan_iff _ _ _).mpr hc)
                linarith
            | inr hy3 => exact ih b y (List.mem_cons_of_mem _ hy3)

theorem pickBest_decomp (g : Goal) (f : List (String × PVal) → ℚ)
    (xs : List (List (String × PVal))) : ∀ b, ∃ l1 l2,
    b :: xs = l1 ++ pickBest g f b xs :: l2 ∧
    ∀ y ∈ l1, keyQ g (f (pickBest g f b xs)) < keyQ g (f y) := by
  induction xs with
  | nil => intro b; exact ⟨[], [], rfl, by simp⟩
  | cons x xs ih =>
      intro b
      by_cases h : betterThan g (f x) (f b) = true
      · simp only [pickBest, if_pos h]
        obtain ⟨l1, l2, hdec, hlt⟩ := ih x
        refine ⟨b :: l1, l2, ?_, ?_⟩
        · rw [List.cons_append, ← hdec]
        · intro y hy
          cases List.mem_cons.mp hy with
          | inl hb =>
              rw [hb]
              have h1 : keyQ g (f (pickBest g f x xs)) ≤ keyQ g (f x) :=
                pickBest_key_le g f xs x x (List.mem_cons_self _ _)
              have h2 : keyQ g (f x) < keyQ g (f b) := (betterThan_iff _ _ _).mp h
              linarith
          | inr hy2 => exact hlt y hy2
      · simp only [pickBest, if_neg h]
        obtain ⟨l1, l2, hdec, hlt⟩ := ih b
        cases l1 with
        | nil =>
            rw [List.nil_append] at hdec
            have hb := (List.cons.inj hdec).1
            have hxs := (List.cons.inj hdec).2
            refine ⟨[], x :: l2, ?_, by simp⟩
            rw [List.nil_append, ← hb, ← hxs]
        | cons b' l1' =>
            rw [List.cons_append] at hdec
            have hb := (List.cons.inj hdec).1
            have hxs := (List.cons.inj hdec).2
            subst hb
            refine ⟨b :: x :: l1', l2, ?_, ?_⟩
            · rw [List.cons_append, List.cons_append, ← hxs]
            · intro y hy
              have hpb : keyQ g (f (pickBest g f b xs)) < keyQ g (f b) :=
                hlt b (List.mem_cons_self _ _)
              cases List.mem_cons.mp hy with
              | inl h1 => rw [h1]; exact hpb
              | inr hy2 =>
                  cases List.mem_cons.mp hy2 with
                  | inl h1 =>
                      rw [h1]
                      have hbx : keyQ g (f b) ≤ keyQ g (f x) :=
                        not_lt.mp fun hc => h ((betterThan_iff _ _ _).mpr hc)
                      linarith
                  | inr hy3 => exact hlt y (List.mem_cons_of_mem _ hy3)

theorem selectStepCounted_eq (g : Goal) (f : List (String × PVal) → ℚ)
    (acc : Option (ℚ × List (String × PVal))) (n : ℕ) (x : List (String × PVal)) :
    selectStepCounted g f (acc, n) x = (selectStep g f acc x, n + 1) := by
  cases acc with
  | none => rfl
  | some p => cases p; rfl

theorem foldl_selectStepCounted (g : Goal) (f : List (String × PVal) → ℚ)
    (batch : List (List (String × PVal))) :
    ∀ (acc : Option (ℚ × List (String × PVal))) (n : ℕ),
    List.foldl (selectStepCounted g f) (acc, n) batch =
      (List.foldl (selectStep g f) acc batch, n + batch.length) := by
  induction batch with
  | nil => intro acc n; simp
  | cons x xs ih =>
      intro acc n
      rw [List.foldl_cons, List.foldl_cons, selectStepCounted_eq, ih]
      rw [List.length_cons, show n + 1 + xs.length = n + (xs.length + 1) by omega]

/-- C2: `_find_ideal_choice` evaluates the function once per assignment
(the count equals the batch length), and tracks a single running best
with strict comparison: the first assignment always becomes the initial
best and a tie never replaces the incumbent, so the returned pair is the
first assignment of the batch attaining the batch-optimal score — no
batch element beats the returned one, and the returned one strictly beats
every element before it. -/
theorem claim2_selector_first_best (g : Goal) (f : List (String × PVal) → ℚ)
    (batch : List (List (String × PVal))) (hne : batch ≠ []) :
    findIdealChoiceCounted g f batch = (findIdealChoice g f batch, batch.length) ∧
    ∃ l1 a l2, batch = l1 ++ a :: l2 ∧
      findIdealChoice g f batch = some (f a, a) ∧
      (∀ p ∈ batch, betterThan g (f p) (f a) = false) ∧
      (∀ p ∈ l1, betterThan g (f a) (f p) = true) := by
  constructor
  · rw [findIdealChoiceCounted, findIdealChoice, foldl_selectStepCounted]
    simp
  · obtain ⟨x, xs, rfl⟩ : ∃ x xs, batch = x :: xs := by
      cases batch with
      | nil => exact absurd rfl hne
      | cons x xs => exact ⟨x, xs, rfl⟩
    obtain ⟨l1, l2, hdec, hlt⟩ := pickBest_decomp g f xs x
    refine ⟨l1, pickBest g f x xs, l2, hdec, findIdealChoice_cons g f x xs, ?_, ?_⟩
    · intro p hp
      have hle := pickBest_key_le g f xs x p hp
      rw [Bool.eq_false_iff]
      intro hc
      exact absurd ((betterThan_iff _ _ _).mp hc) (not_lt.mpr hle)
    · intro p hp
      exact (betterThan_iff _ _ _).mpr (hlt p hp)

/-- Witness for C2 on a two-assignment batch under the `'max'` goal. -/
theorem claim2_witness :
    ([[("x", PVal.int 0)], [("x", PVal.int 1)]] : List (List (String × PVal))) ≠ [] ∧
    (findIdealChoiceCounted .max evalLookupX
        [[("x", PVal.int 0)], [("x", PVal.int 1)]] =
      (findIdealChoice .max evalLookupX [[("x", PVal.int 0)], [("x", PVal.int 1)]],
        ([[("x", PVal.int 0)], [("x", PVal.int 1)]] :
          List (List (String × PVal))).length) ∧
    ∃ l1 a l2,
      ([[("x", PVal.int 0)], [("x", PVal.int 1)]] :
        List (List (String × PVal))) = l1 ++ a :: l2 ∧
      findIdealChoice .max evalLookupX [[("x", PVal.int 0)], [("x", PVal.int 1)]] =
        some (evalLookupX a, a) ∧
      (∀ p ∈ ([[("x", PVal.int 0)], [("x", PVal.int 1)]] :
          List (List (String × PVal))),
        betterThan .max (evalLookupX p) (evalLookupX a) = false) ∧
      (∀ p ∈ l1, betterThan .max (evalLookupX a) (evalLookupX p) = true)) :=
  ⟨by simp, claim2_selector_first_best .max evalLookupX _ (by simp)⟩

/-- C5: whenever the goal is a numeric target `t` and the current batch
contains an assignment scoring exactly `t`, the crunch loop returns at
this iteration a pair whose score is exactly `t`: the selector's result is
returned immediately, the engine state is untouched (no range narrowing
and no point generation for any further iteration happen), and the result
does not depend on the remaining iteration budget. -/
theorem claim5_target_early_exit (c : Cruncher) (t : ℚ)
    (points : List (List (String × PVal)))
    (last : Option (ℚ × List (String × PVal))) (fuel : ℕ)
    (hg : c.goal = .target t) (hfuel : 1 ≤ fuel)
    (hmem : ∃ p ∈ points, c.function p = t) :
    ∃ a, findIdealChoice c.goal c.function points = some (t, a) ∧
      crunchLoop c points last fuel = (some (t, a), c) := by
  obtain ⟨p, hp, hpt⟩ := hmem
  obtain ⟨x, xs, rfl⟩ : ∃ x xs, points = x :: xs := by
    cases points with
    | nil => simp at hp
    | cons x xs => exact ⟨x, xs, rfl⟩
  have hfind := findIdealChoice_cons c.goal c.function x xs
  set v := c.function (pickBest c.goal c.function x xs) with hv
  have hopt : keyQ c.goal v ≤ keyQ c.goal (c.function p) :=
    pickBest_key_le _ _ xs x p hp
  rw [hg] at hopt
  have hva : v = t := by
    have h0 : |t - v| ≤ |t - c.function p| := hopt
    rw [hpt, sub_self, abs_zero] at h0
    have h1 : |t - v| = 0 := le_antisymm h0 (abs_nonneg _)
    have h2 := abs_eq_zero.mp h1
    linarith
  obtain ⟨m, rfl⟩ : ∃ m, fuel = m + 1 := ⟨fuel - 1, by omega⟩
  refine ⟨pickBest c.goal c.function x xs, ?_, ?_⟩
  · rw [hfind, hva]
  · rw [show crunchLoop c (x :: xs) last (m + 1) =
      (match findIdealChoice c.goal c.function (x :: xs) with
      | Option.none => (Option.none, c)
      | some (ret, vrs) =>
          if goalTargetHit c.goal ret then (some (ret, vrs), c)
          else
            let ranges := convertBestValVarPairIntoRanges c (ret, vrs)
            let pc := generateTestPoints c ranges
            crunchLoop pc.2 pc.1 (some (ret, vrs)) m) from rfl]
    rw [hfind, hva]
    simp [hg, goalTargetHit]

/-- Witness for C5: a singleton batch scoring exactly the target 7 makes
the loop return `(7, assignment)` at once with the engine untouched. -/
theorem claim5_witness :
    (exTarget7.goal = .target 7 ∧ (1 : ℕ) ≤ 5 ∧
      ∃ p ∈ [[("x", PVal.int 7)]], exTarget7.function p = 7) ∧
    ∃ a, findIdealChoice exTarget7.goal exTarget7.function
        [[("x", PVal.int 7)]] = some (7, a) ∧
      crunchLoop exTarget7 [[("x", PVal.int 7)]] Option.none 5 =
        (some (7, a), exTarget7) :=
  ⟨⟨rfl, by norm_num,
      ⟨[("x", PVal.int 7)], by simp,
        by norm_num [exTarget7, evalLookupX, List.lookup, PVal.toQ]⟩⟩,
    claim5_target_early_exit exTarget7 7 [[("x", PVal.int 7)]] Option.none 5
      rfl (by norm_num)
      ⟨[("x", PVal.int 7)], by simp,
        by norm_num [exTarget7, evalLookupX, List.lookup, PVal.toQ]⟩⟩

theorem generate_snd (c : Cruncher) (ranges : List (String × PyObj)) :
    (generateTestPoints c ranges).2 =
      { c with global_increment_storage :=
          (c.vars.map Prod.fst).map fun k => (k, (candidatesForKey c ranges k).2) } := rfl

theorem double_update (c : Cruncher) (g1 g2 : List (String × ℚ)) :
    ({ { c with global_increment_storage := g1 } with
        global_increment_storage := g2 } : Cruncher) =
      { c with global_increment_storage := g2 } := by
  cases c
  rfl

theorem crunchLoop_frame (n : ℕ) : ∀ (c : Cruncher)
    (points : List (List (String × PVal)))
    (last : Option (ℚ × List (String × PVal))),
    ∃ st, (crunchLoop c points last n).2 =
      { c with global_increment_storage := st } := by
  induction n with
  | zero =>
      intro c points last
      exact ⟨c.global_increment_storage, by cases c; rfl⟩
  | succ m ih =>
      intro c points last
      cases hfi : findIdealChoice c.goal c.function points with
      | none =>
          simp only [crunchLoop, hfi]
          exact ⟨c.global_increment_storage, by cases c; rfl⟩
      | some rv =>
          obtain ⟨ret, vrs⟩ := rv
          simp only [crunchLoop, hfi]
          by_cases hhit : goalTargetHit c.goal ret = true
          · rw [if_pos hhit]
            exact ⟨c.global_increment_storage, by cases c; rfl⟩
          · rw [if_neg hhit]
            obtain ⟨st, hst⟩ := ih
              (generateTestPoints c (convertBestValVarPairIntoRanges c (ret, vrs))).2
              (generateTestPoints c (convertBestValVarPairIntoRanges c (ret, vrs))).1
              (some (ret, vrs))
            refine ⟨st, ?_⟩
            rw [hst, generate_snd, double_update]

theorem crunch_frame (c : Cruncher) :
    ∃ st, (crunch c).2 = { c with global_increment_storage := st } := by
  obtain ⟨st, hst⟩ := crunchLoop_frame c.iterations
    (generateTestPoints c c.vars).2 (generateTestPoints c c.vars).1 Option.none
  refine ⟨st, ?_⟩
  show (crunchLoop (generateTestPoints c c.vars).2 (generateTestPoints c c.vars).1
    Option.none c.iterations).2 = _
  rw [hst, generate_snd, double_update]

/-- C10: `crunch` never mutates the declared search space: the engine it
leaves behind has exactly the original `self.variables` (so every
iteration's clamping in the range narrower reads the original bounds),
and it differs from the input engine at most in the step-size table
`global_increment_storage`. -/
theorem claim10_frame (c : Cruncher) :
    (crunch c).2.vars = c.vars ∧
    ∃ st, (crunch c).2 = { c with global_increment_storage := st } := by
  obtain ⟨st, hst⟩ := crunch_frame c
  exact ⟨by rw [hst], st, hst⟩

theorem crunch_gis_irrel (c : Cruncher) (g : List (String × ℚ)) :
    crunch { c with global_increment_storage := g } = crunch c := by
  cases c
  rfl

/-- C9: `crunch` is deterministic across runs on the same engine: a second
run, started from the engine state the first run left behind (its
step-size table included), returns the same score and the same parameter
assignment as the first. -/
theorem claim9_determinism (c : Cruncher) (r : ℚ × List (String × PVal))
    (h : (crunch c).1 = some r) :
    (crunch (crunch c).2).1 = some r := by
  obtain ⟨st, hst⟩ := crunch_frame c
  rw [hst, crunch_gis_irrel, h]

/-- Witness for C9: running `crunch` twice on the constant engine returns
the identical result both times. -/
theorem claim9_witness :
    (crunch exConst).1 = some (0, [("x", PVal.int 5)]) ∧
    (crunch (crunch exConst).2).1 = some (0, [("x", PVal.int 5)]) :=
  ⟨by decide, claim9_determinism exConst (0, [("x", PVal.int 5)]) (by decide)⟩

/-- C1: the range narrower stays within the originally declared bounds.
For a float-range key the new range is a two-float list whose low end is
at least the declared low and whose high end is at most the declared
high; for an integer-range key the new range is a two-int tuple within
the declared bounds (in `check_all_ints` mode it is the original tuple
itself); a constant key gets its best value back verbatim — unchanged
whenever that value came from the current range entry; a boolean key gets
the full `(True, False)` tuple, leaving the two-element boolean domain
unchanged every iteration. -/
theorem claim1_narrow_within_original_bounds (c : Cruncher) (k : String) (v : PVal) :
    (∀ x y : PyObj, typesOf c k = some .float → varDecl c k = .vlist [x, y] →
      ∃ s e : ℚ, narrowKey c k v = .vlist [.vfloat s, .vfloat e] ∧
        x.toQ ≤ s ∧ e ≤ y.toQ) ∧
    (∀ lo hi : ℤ, typesOf c k = some .int → varDecl c k = .vtuple [.vint lo, .vint hi] →
      ∃ s e : ℤ, narrowKey c k v = .vtuple [.vint s, .vint e] ∧
        lo ≤ s ∧ e ≤ hi) ∧
    (∀ r : PyObj, typesOf c k = some .constant → v = r.toPVal → r.isNumType = true →
      narrowKey c k v = r) ∧
    (typesOf c k = some .bool → narrowKey c k v = .vtuple [.vbool true, .vbool false]) := by
  refine ⟨?_, ?_, ?_, ?_⟩
  · intro x y hk hd
    simp only [narrowKey, hk, hd, PyObj.elemAt, List.getD_cons_zero, List.getD_cons_succ]
    refine ⟨_, _, rfl, ?_, ?_⟩
    · split_ifs with h1
      · exact le_refl _
      · exact not_lt.mp h1
    · split_ifs with h1
      · exact le_refl _
      · exact not_lt.mp h1
  · intro lo hi hk hd
    simp only [narrowKey, hk, hd, PyObj.elemAt, List.getD_cons_zero, List.getD_cons_succ]
    by_cases hcai : c.check_all_ints = true
    · rw [if_pos hcai]
      exact ⟨lo, hi, rfl, le_refl _, le_refl _⟩
    · rw [if_neg hcai]
      by_cases hinc : (List.lookup k c.global_increment_storage).getD 0 < 1
      · rw [if_pos hinc]
        refine ⟨_, _, rfl, ?_, ?_⟩
        · simp only [PyObj.toQ, PyObj.toPVal, PVal.toZ]
          split_ifs with h1
          · exact le_refl _
          · exact_mod_cast not_lt.mp h1
        · simp only [PyObj.toQ, PyObj.toPVal, PVal.toZ]
          split_ifs with h1
          · exact le_refl _
          · exact_mod_cast not_lt.mp h1
      · rw [if_neg hinc]
        refine ⟨_, _, rfl, ?_, ?_⟩
        · simp only [PyObj.toQ, PyObj.toPVal, PVal.toZ]
          split_ifs with h1
          · exact le_refl _
          · exact_mod_cast not_lt.mp h1
        · simp only [PyObj.toQ, PyObj.toPVal, PVal.toZ]
          split_ifs with h1
          · exact le_refl _
          · exact_mod_cast not_lt.mp h1
  · intro r hk hv hnum
    simp only [narrowKey, hk, hv]
    cases r with
    | vint n => rfl
    | vfloat q => rfl
    | _ => simp [PyObj.isNumType] at hnum
  · intro hk
    simp only [narrowKey, hk]

/-- Witness for C1 on an engine with one variable of each kind. -/
theorem claim1_witness :
    (∃ s e : ℚ, narrowKey exMixed "f" (.float 5) = .vlist [.vfloat s, .vfloat e] ∧
      (PyObj.vint 0).toQ ≤ s ∧ e ≤ (PyObj.vint 10).toQ) ∧
    (∃ s e : ℤ, narrowKey exMixed "i" (.int 5) = .vtuple [.vint s, .vint e] ∧
      (0 : ℤ) ≤ s ∧ e ≤ 10) ∧
    narrowKey exMixed "c" (.float 7) = .vfloat 7 ∧
    narrowKey exMixed "b" (.bool true) = .vtuple [.vbool true, .vbool false] :=
  ⟨(claim1_narrow_within_original_bounds exMixed "f" (.float 5)).1
      (.vint 0) (.vint 10) rfl rfl,
   (claim1_narrow_within_original_bounds exMixed "i" (.int 5)).2.1 0 10 rfl rfl,
   (claim1_narrow_within_original_bounds exMixed "c" (.float 7)).2.2.1
      (.vfloat 7) rfl rfl rfl,
   (claim1_narrow_within_original_bounds exMixed "b" (.bool true)).2.2.2 rfl⟩
